import Mathlib

/-!
Shallow embedding of `src/target_info.rs` (probe-run stack-range resolution).

Machine integers (`u32`) are modelled as `Nat` with explicit `% 2^32` at the
operations where Rust arithmetic can wrap: the `initial_stack_pointer - 1`
top-of-stack computation, the `address + size - 1` section upper bound, and
the `section_range.end() + 1` shrink step.  Rust `Range<u32>` (half-open) and
`RangeInclusive<u32>` values are pairs of `Nat`; the Rust field `end` is named
`stop` here because `end` is a Lean keyword.
-/

/-- Modulus of 32-bit unsigned arithmetic. -/
def U32_MOD : Nat := 4294967296

/-- An inclusive range of `u32` addresses, modelling Rust `RangeInclusive<u32>`.
`stop` models the Rust accessor `end()`. -/
structure RangeInc where
  start : Nat
  stop : Nat
deriving DecidableEq, Repr

/-- The RAM region from the target memory map, modelling `probe_rs RamRegion`:
its `range` field is the half-open range `[start, stop)`. -/
structure RamRegion where
  start : Nat
  stop : Nat
deriving DecidableEq, Repr

/-- Memory region of the target memory map: tagged RAM, or any non-RAM kind
(`Generic`, `Flash`, ... are collapsed into `NonRam`; the code ignores them all). -/
inductive MemoryRegion where
  | Ram (region : RamRegion)
  | NonRam
deriving DecidableEq, Repr

/-- An ELF image section as consumed by `extract_stack_info`: name, base
address and byte size (32-bit values). -/
structure Section where
  name : String
  address : Nat
  size : Nat
deriving DecidableEq, Repr

/-- Resolved stack information, modelling `StackInfo`. -/
structure StackInfo where
  range : RangeInc
  data_below_stack : Bool
deriving DecidableEq, Repr

/-- Rust `RangeInclusive::contains` on `u32`. -/
def contains_inc (r : RangeInc) (x : Nat) : Bool :=
  decide (r.start ≤ x) && decide (x ≤ r.stop)

/-- Rust `Range::contains` (half-open `[start, stop)`) on `u32`. -/
def contains_half_open (start stop x : Nat) : Bool :=
  decide (start ≤ x) && decide (x < stop)

/-- Embedding of `is_superset` (target_info.rs lines 107-112): both endpoints
of `subset` lie within the inclusive range `superset`. -/
def is_superset (superset subset : RangeInc) : Bool :=
  decide (subset.start ≥ superset.start) && decide (subset.start ≤ superset.stop)
    && decide (subset.stop ≤ superset.stop) && decide (subset.stop ≥ superset.start)

/-- Embedding of `extract_active_ram_region` (lines 36-62): the first RAM
region of the memory map whose inclusive span `start..=stop` contains the
initial stack pointer; non-RAM regions are skipped. -/
def extract_active_ram_region : List MemoryRegion → Nat → Option RamRegion
  | [], _ => none
  | MemoryRegion.Ram r :: rest, initial_stack_pointer =>
      if contains_inc ⟨r.start, r.stop⟩ initial_stack_pointer then some r
      else extract_active_ram_region rest initial_stack_pointer
  | MemoryRegion.NonRam :: rest, initial_stack_pointer =>
      extract_active_ram_region rest initial_stack_pointer

/-- Highest address of a (nonzero-size) section: `address + size - 1` in
wrapping `u32` arithmetic (line 82). -/
def section_high (s : Section) : Nat := (s.address + s.size - 1) % U32_MOD

/-- One iteration of the section loop of `extract_stack_info` (lines 75-99),
acting on the loop state: `none` is the early `return None` (absorbing),
`some lo` is the current lower bound of `stack_range`; the upper bound `top`
(`initial_stack_pointer - 1`) never changes during the loop. -/
def stack_step (ram : RamRegion) (top : Nat) (st : Option Nat) (s : Section) : Option Nat :=
  match st with
  | none => none
  | some lo =>
    if s.size = 0 then some lo
    else
      let highest_address := section_high s
      if contains_half_open ram.start ram.stop highest_address then
        if contains_inc ⟨s.address, highest_address⟩ top then none
        else if is_superset ⟨lo, top⟩ ⟨s.address, highest_address⟩ then
          some ((highest_address + 1) % U32_MOD)
        else some lo
      else some lo

/-- The whole section loop of `extract_stack_info`, as a left fold of
`stack_step` (the Rust `return None` is modelled by the absorbing `none`). -/
def stack_loop (ram : RamRegion) (top : Nat) (sections : List Section) (st : Option Nat) :
    Option Nat :=
  sections.foldl (stack_step ram top) st

/-- Embedding of `extract_stack_info` (lines 64-105): start from
`ram.start ..= initial_stack_pointer - 1`, run the section loop, and package
the result with the `data_below_stack` flag. -/
def extract_stack_info (sections : List Section) (initial_stack_pointer : Nat)
    (ram_region : Option RamRegion) : Option StackInfo :=
  match ram_region with
  | none => none
  | some ram =>
    let top := (initial_stack_pointer + (U32_MOD - 1)) % U32_MOD
    match stack_loop ram top sections (some ram.start) with
    | none => none
    | some lo => some ⟨⟨lo, top⟩, decide (lo > ram.start)⟩

/-- The selector-then-resolver composition performed by `TargetInfo::new`
(lines 22-33), with the probe-target database lookup abstracted away:
returns the pair `(active_ram_region, stack_info)`. -/
def target_info_new (memory_map : List MemoryRegion) (sections : List Section)
    (initial_stack_pointer : Nat) : Option RamRegion × Option StackInfo :=
  let active := extract_active_ram_region memory_map initial_stack_pointer
  (active, extract_stack_info sections initial_stack_pointer active)

/-! Helper lemmas about the section loop. -/

theorem stack_loop_of_none (ram : RamRegion) (top : Nat) (l : List Section) :
    stack_loop ram top l none = none := by
  induction l with
  | nil => rfl
  | cons s rest ih =>
    show stack_loop ram top rest (stack_step ram top none s) = none
    exact ih

theorem stack_step_le (ram : RamRegion) (top : Nat) (s : Section) (lo lo' : Nat)
    (htop : top < U32_MOD) (hlo : lo ≤ top)
    (h : stack_step ram top (some lo) s = some lo') : lo' ≤ top := by
  unfold stack_step at h
  simp only [contains_inc, contains_half_open, is_superset, section_high, U32_MOD, ge_iff_le,
    Bool.and_eq_true, decide_eq_true_eq] at h
  simp only [U32_MOD] at htop
  split_ifs at h with h1 h2 h3 h4 <;>
    simp only [Option.some.injEq, reduceCtorEq] at h <;>
    omega

theorem stack_step_ge (ram : RamRegion) (top : Nat) (s : Section) (lo lo' : Nat)
    (htop : top < U32_MOD)
    (h : stack_step ram top (some lo) s = some lo') : lo ≤ lo' := by
  unfold stack_step at h
  simp only [contains_inc, contains_half_open, is_superset, section_high, U32_MOD, ge_iff_le,
    Bool.and_eq_true, decide_eq_true_eq] at h
  simp only [U32_MOD] at htop
  split_ifs at h with h1 h2 h3 h4 <;>
    simp only [Option.some.injEq, reduceCtorEq] at h <;>
    omega

theorem stack_loop_le (ram : RamRegion) (top : Nat) (l : List Section) (lo lo' : Nat)
    (htop : top < U32_MOD) (hlo : lo ≤ top)
    (h : stack_loop ram top l (some lo) = some lo') : lo' ≤ top := by
  induction l generalizing lo with
  | nil => exact (Option.some.inj h) ▸ hlo
  | cons s rest ih =>
    have hstep : stack_loop ram top rest (stack_step ram top (some lo) s) = some lo' := h
    cases hmid : stack_step ram top (some lo) s with
    | none => rw [hmid, stack_loop_of_none] at hstep; exact absurd hstep (by simp)
    | some mid =>
      rw [hmid] at hstep
      exact ih mid (stack_step_le ram top s lo mid htop hlo hmid) hstep

theorem stack_loop_ge (ram : RamRegion) (top : Nat) (l : List Section) (lo lo' : Nat)
    (htop : top < U32_MOD)
    (h : stack_loop ram top l (some lo) = some lo') : lo ≤ lo' := by
  induction l generalizing lo with
  | nil => exact Nat.le_of_eq (Option.some.inj h)
  | cons s rest ih =>
    have hstep : stack_loop ram top rest (stack_step ram top (some lo) s) = some lo' := h
    cases hmid : stack_step ram top (some lo) s with
    | none => rw [hmid, stack_loop_of_none] at hstep; exact absurd hstep (by simp)
    | some mid =>
      rw [hmid] at hstep
      exact Nat.le_trans (stack_step_ge ram top s lo mid htop hmid) (ih mid hstep)

theorem contains_inc_iff (r : RangeInc) (x : Nat) :
    contains_inc r x = true ↔ (r.start ≤ x ∧ x ≤ r.stop) := by
  simp [contains_inc]

theorem extract_stack_info_some (sections : List Section) (sp : Nat) (ram : RamRegion) :
    extract_stack_info sections sp (some ram) =
      match stack_loop ram ((sp + (U32_MOD - 1)) % U32_MOD) sections (some ram.start) with
      | none => none
      | some lo => some ⟨⟨lo, (sp + (U32_MOD - 1)) % U32_MOD⟩, decide (lo > ram.start)⟩ := rfl

theorem stack_step_skip (ram : RamRegion) (top : Nat) (lo : Nat) (s : Section)
    (h : s.size = 0 ∨ ¬(ram.start ≤ section_high s ∧ section_high s < ram.stop)) :
    stack_step ram top (some lo) s = some lo := by
  unfold stack_step
  simp only [contains_inc, contains_half_open, is_superset, ge_iff_le, Bool.and_eq_true,
    decide_eq_true_eq]
  split_ifs with h1 h2 h3 h4 <;> first | rfl | (exfalso; rcases h with h | h <;> omega)

theorem stack_step_id (ram : RamRegion) (top : Nat) (s : Section)
    (h : s.size = 0 ∨ ¬(ram.start ≤ section_high s ∧ section_high s < ram.stop)) :
    ∀ st, stack_step ram top st s = st := by
  intro st
  cases st with
  | none => rfl
  | some lo => exact stack_step_skip ram top lo s h

theorem stack_step_none_of_kill (ram : RamRegion) (top : Nat) (s : Section)
    (hsz : s.size ≠ 0)
    (hres : ram.start ≤ section_high s ∧ section_high s < ram.stop)
    (hkill : s.address ≤ top ∧ top ≤ section_high s) :
    ∀ lo : Nat, stack_step ram top (some lo) s = none := by
  intro lo
  unfold stack_step
  simp only [contains_inc, contains_half_open, is_superset, ge_iff_le, Bool.and_eq_true,
    decide_eq_true_eq]
  split_ifs with h1 h2 h3 h4 <;> first | rfl | (exfalso; omega)

theorem stack_step_live (ram : RamRegion) (top : Nat) (s : Section) (lo : Nat)
    (hsz : s.size ≠ 0)
    (hres : ram.start ≤ section_high s ∧ section_high s < ram.stop)
    (hnk : ¬(s.address ≤ top ∧ top ≤ section_high s)) :
    stack_step ram top (some lo) s =
      if lo ≤ s.address ∧ s.address ≤ top ∧ section_high s ≤ top ∧ lo ≤ section_high s then
        some ((section_high s + 1) % U32_MOD)
      else some lo := by
  unfold stack_step
  simp only [contains_inc, contains_half_open, is_superset, ge_iff_le, Bool.and_eq_true,
    decide_eq_true_eq]
  split_ifs with h1 h2 h3 h4 <;> first | rfl | (exfalso; omega)

theorem stack_loop_of_skips (ram : RamRegion) (top : Nat) (l : List Section) (lo : Nat)
    (h : ∀ s ∈ l, s.size = 0 ∨ ¬(ram.start ≤ section_high s ∧ section_high s < ram.stop)) :
    stack_loop ram top l (some lo) = some lo := by
  induction l with
  | nil => rfl
  | cons a rest ih =>
    show stack_loop ram top rest (stack_step ram top (some lo) a) = some lo
    rw [stack_step_skip ram top lo a (h a (List.mem_cons_self a rest))]
    exact ih fun s hs => h s (List.mem_cons_of_mem a hs)

theorem stack_loop_of_kill (ram : RamRegion) (top : Nat) (l : List Section) (s : Section)
    (hmem : s ∈ l) (hsz : s.size ≠ 0)
    (hres : ram.start ≤ section_high s ∧ section_high s < ram.stop)
    (hkill : s.address ≤ top ∧ top ≤ section_high s) :
    ∀ st, stack_loop ram top l st = none := by
  induction l with
  | nil => exact absurd hmem (List.not_mem_nil s)
  | cons a rest ih =>
    intro st
    show stack_loop ram top rest (stack_step ram top st a) = none
    rcases List.mem_cons.mp hmem with heq | hmem'
    · subst heq
      have hstep : stack_step ram top st s = none := by
        cases st with
        | none => rfl
        | some lo => exact stack_step_none_of_kill ram top s hsz hres hkill lo
      rw [hstep]
      exact stack_loop_of_none ram top rest
    · exact ih hmem' (stack_step ram top st a)

/-! Claim theorems. -/

/-- C1: counterexample — on the claimed end-to-end input (RAM inclusive span
[0x20000000, 0x20000FFF] stored half-open as [0x20000000, 0x20001000), initial
SP 0x20001000, one section `.data` at 0x20000000 of size 0x100) the resolver
produces the range [0x20000100, 0x20000FFF] with data_below_stack = true, not
the claimed [0x20000100, 0x20000FFE] with data_below_stack = false. -/
theorem c1_end_to_end_counterexample :
    (target_info_new [MemoryRegion.Ram ⟨0x20000000, 0x20001000⟩]
        [⟨".data", 0x20000000, 0x100⟩] 0x20001000).2
      = some ⟨⟨0x20000100, 0x20000FFF⟩, true⟩
    ∧ (target_info_new [MemoryRegion.Ram ⟨0x20000000, 0x20001000⟩]
        [⟨".data", 0x20000000, 0x100⟩] 0x20001000).2
      ≠ some ⟨⟨0x20000100, 0x20000FFE⟩, false⟩ := by
  exact ⟨rfl, by decide⟩

/-- C1 (amended): for target RAM [0x20000000, 0x20000FFF] (inclusive), initial
SP 0x20001000 and one section `.data` at 0x20000000 of size 0x100, the
pipeline selects that RAM region and resolves the stack range to
[0x20000100, 0x20000FFF] with data_below_stack = true. -/
theorem c1_end_to_end :
    target_info_new [MemoryRegion.Ram ⟨0x20000000, 0x20001000⟩]
        [⟨".data", 0x20000000, 0x100⟩] 0x20001000
      = (some ⟨0x20000000, 0x20001000⟩, some ⟨⟨0x20000100, 0x20000FFF⟩, true⟩) := by
  rfl

/-- C4: counterexample — for the superset A = [0, 10] and the empty inclusive
range B = [11, 0] (a legitimate RangeInclusive value), every point of B lies
in A vacuously, yet is_superset returns false, so the claimed equivalence
fails for arbitrary inclusive ranges. -/
theorem c4_is_superset_counterexample :
    ¬(is_superset ⟨0, 10⟩ ⟨11, 0⟩ = true ↔
        ∀ x : Nat, 11 ≤ x ∧ x ≤ 0 → 0 ≤ x ∧ x ≤ 10) := by
  intro hiff
  exact absurd (hiff.mpr fun x hx => absurd hx (by omega)) (by decide)

/-- C4 (amended): for every inclusive range A and every non-empty inclusive
range B (B.start ≤ B.stop), is_superset A B returns true iff every point of B
lies in A; this covers the exact-equality and boundary-touching cases. -/
theorem c4_is_superset_iff (A B : RangeInc) (hB : B.start ≤ B.stop) :
    is_superset A B = true ↔
      ∀ x : Nat, B.start ≤ x ∧ x ≤ B.stop → A.start ≤ x ∧ x ≤ A.stop := by
  simp only [is_superset, Bool.and_eq_true, decide_eq_true_eq, ge_iff_le]
  constructor
  · rintro ⟨⟨⟨h1, h2⟩, h3⟩, h4⟩ x hx
    omega
  · intro h
    have hs := h B.start ⟨Nat.le_refl _, hB⟩
    have he := h B.stop ⟨hB, Nat.le_refl _⟩
    omega

/-- C4 witness: applying the amended containment equivalence at the concrete
boundary-touching case A = [0, 10], B = [5, 10]. -/
theorem c4_is_superset_iff_witness :
    (5 : Nat) ≤ 10
    ∧ (is_superset ⟨0, 10⟩ ⟨5, 10⟩ = true ↔
        ∀ x : Nat, 5 ≤ x ∧ x ≤ 10 → 0 ≤ x ∧ x ≤ 10) :=
  ⟨by decide, c4_is_superset_iff ⟨0, 10⟩ ⟨5, 10⟩ (by decide)⟩

/-- C6: counterexample — with RAM region [100, 200) and initial stack pointer
100 (equal to RAM.start), the resolver returns a present Stack Info whose
range is [100, 99], violating the claimed invariant low ≤ high. -/
theorem c6_invariant_counterexample :
    extract_stack_info [] 100 (some ⟨100, 200⟩) = some ⟨⟨100, 99⟩, false⟩
    ∧ ¬((100 : Nat) ≤ 99) := by
  exact ⟨rfl, by decide⟩

/-- C6 (amended): whenever the resolver returns a present Stack Info, its
upper bound equals initial_stack_pointer - 1 and its lower bound is at least
RAM.start (the upper bound is never changed, the lower bound only revised
upward from RAM.start); additionally low ≤ high whenever
RAM.start < initial_stack_pointer. -/
theorem c6_range_invariant (sections : List Section) (sp : Nat) (ram : RamRegion)
    (si : StackInfo) (hsp1 : 1 ≤ sp) (hspM : sp ≤ U32_MOD)
    (hres : extract_stack_info sections sp (some ram) = some si) :
    si.range.stop = sp - 1 ∧ ram.start ≤ si.range.start
      ∧ (ram.start < sp → si.range.start ≤ si.range.stop) := by
  have htopeq : (sp + (U32_MOD - 1)) % U32_MOD = sp - 1 := by
    simp only [U32_MOD] at *; omega
  have htoplt : sp - 1 < U32_MOD := by simp only [U32_MOD] at *; omega
  rw [extract_stack_info_some, htopeq] at hres
  cases hloop : stack_loop ram (sp - 1) sections (some ram.start) with
  | none => rw [hloop] at hres; exact absurd hres (by simp)
  | some lo =>
    rw [hloop] at hres
    have hsi := Option.some.inj hres
    subst hsi
    refine ⟨rfl, ?_, ?_⟩
    · exact stack_loop_ge ram (sp - 1) sections ram.start lo htoplt hloop
    · intro hlow
      exact stack_loop_le ram (sp - 1) sections ram.start lo htoplt (by omega) hloop

/-- C6 witness: the amended invariant applied to the concrete run with RAM
region [0, 200), initial SP 100 and no sections. -/
theorem c6_range_invariant_witness :
    ((1 : Nat) ≤ 100 ∧ (100 : Nat) ≤ U32_MOD
      ∧ extract_stack_info [] 100 (some ⟨0, 200⟩) = some ⟨⟨0, 99⟩, false⟩)
    ∧ ((99 : Nat) = 100 - 1 ∧ (0 : Nat) ≤ 0 ∧ ((0 : Nat) < 100 → (0 : Nat) ≤ 99)) := by
  refine ⟨⟨by decide, by decide, rfl⟩, ?_⟩
  exact c6_range_invariant [] 100 ⟨0, 200⟩ ⟨⟨0, 99⟩, false⟩ (by decide) (by decide) rfl

/-- C10: for a RAM region stored as the half-open range [start, stop), an
initial stack pointer exactly equal to stop (one past the last RAM byte) is
still accepted by the selector's inclusive containment test, so the region is
selected as the active RAM region. -/
theorem c10_sp_one_past_end (r : RamRegion) (h : r.start ≤ r.stop) :
    extract_active_ram_region [MemoryRegion.Ram r] r.stop = some r := by
  unfold extract_active_ram_region
  simp [contains_inc_iff, h]

/-- C10 witness: the selector accepts SP = 0x20001000 for the RAM region
stored as [0x20000000, 0x20001000). -/
theorem c10_sp_one_past_end_witness :
    (0x20000000 : Nat) ≤ 0x20001000
    ∧ extract_active_ram_region [MemoryRegion.Ram ⟨0x20000000, 0x20001000⟩] 0x20001000
      = some ⟨0x20000000, 0x20001000⟩ :=
  ⟨by decide, c10_sp_one_past_end ⟨0x20000000, 0x20001000⟩ (by decide)⟩

/-- C3: if any non-empty section whose span contains initial_stack_pointer - 1
has its upper bound inside the active RAM region, the resolver returns an
absent Stack Info (the Rust early `return None`), regardless of the other
sections in the collection. -/
theorem c3_indeterminate_when_sp_in_section (sections : List Section) (sp : Nat)
    (ram : RamRegion) (s : Section) (hmem : s ∈ sections) (hsz : s.size ≠ 0)
    (hsp1 : 1 ≤ sp) (hspM : sp ≤ U32_MOD)
    (hres : ram.start ≤ section_high s ∧ section_high s < ram.stop)
    (hlow : s.address ≤ sp - 1) (hhigh : sp - 1 ≤ section_high s) :
    extract_stack_info sections sp (some ram) = none := by
  have htopeq : (sp + (U32_MOD - 1)) % U32_MOD = sp - 1 := by
    simp only [U32_MOD] at *; omega
  rw [extract_stack_info_some, htopeq,
    stack_loop_of_kill ram (sp - 1) sections s hmem hsz hres ⟨hlow, hhigh⟩ (some ram.start)]

/-- C3 witness: a section [0x20000000, 0x200000FF] containing SP - 1 =
0x200000FF forces an absent result even with another section present. -/
theorem c3_indeterminate_witness :
    (Section.mk ".data" 0x20000000 0x100 ∈
        [Section.mk ".bss" 0x20000200 0x40, Section.mk ".data" 0x20000000 0x100]
      ∧ (Section.mk ".data" 0x20000000 0x100).size ≠ 0
      ∧ (1 : Nat) ≤ 0x20000100 ∧ (0x20000100 : Nat) ≤ U32_MOD
      ∧ ((0x20000000 : Nat) ≤ section_high ⟨".data", 0x20000000, 0x100⟩
          ∧ section_high ⟨".data", 0x20000000, 0x100⟩ < 0x20001000)
      ∧ (0x20000000 : Nat) ≤ 0x20000100 - 1
      ∧ (0x20000100 : Nat) - 1 ≤ section_high ⟨".data", 0x20000000, 0x100⟩)
    ∧ extract_stack_info
        [Section.mk ".bss" 0x20000200 0x40, Section.mk ".data" 0x20000000 0x100]
        0x20000100 (some ⟨0x20000000, 0x20001000⟩) = none := by
  refine ⟨⟨by decide, by decide, by decide, by decide, by decide, by decide, by decide⟩, ?_⟩
  exact c3_indeterminate_when_sp_in_section
    [Section.mk ".bss" 0x20000200 0x40, Section.mk ".data" 0x20000000 0x100]
    0x20000100 ⟨0x20000000, 0x20001000⟩ ⟨".data", 0x20000000, 0x100⟩
    (by decide) (by decide) (by decide) (by decide) (by decide) (by decide) (by decide)

/-- C5: with exactly one non-zero-size section occupying [L, H], resident in
the active RAM region, with H strictly below initial_stack_pointer - 1 and
L at or above RAM.start, the resolver returns the range [H + 1,
initial_stack_pointer - 1] with data_below_stack = true. -/
theorem c5_single_section_below (ram : RamRegion) (sp : Nat) (s : Section)
    (hsz : s.size ≠ 0) (hwrap : s.address + s.size ≤ U32_MOD)
    (hsp1 : 1 ≤ sp) (hspM : sp ≤ U32_MOD)
    (hL : ram.start ≤ s.address)
    (hH : s.address + s.size - 1 < sp - 1)
    (hram : s.address + s.size - 1 < ram.stop) :
    extract_stack_info [s] sp (some ram)
      = some ⟨⟨s.address + s.size, sp - 1⟩, true⟩ := by
  have htopeq : (sp + (U32_MOD - 1)) % U32_MOD = sp - 1 := by
    simp only [U32_MOD] at *; omega
  have hhigh : section_high s = s.address + s.size - 1 := by
    simp only [section_high, U32_MOD] at *; omega
  have hstep : stack_step ram (sp - 1) (some ram.start) s
      = some (s.address + s.size) := by
    rw [stack_step_live ram (sp - 1) s ram.start hsz (by omega) (by omega),
      if_pos (by omega)]
    simp only [hhigh, Option.some.injEq, U32_MOD] at *
    omega
  have hloop : stack_loop ram (sp - 1) [s] (some ram.start)
      = some (s.address + s.size) := by
    show stack_loop ram (sp - 1) [] (stack_step ram (sp - 1) (some ram.start) s)
      = some (s.address + s.size)
    rw [hstep]
    rfl
  have hflag : s.address + s.size > ram.start := by omega
  rw [extract_stack_info_some, htopeq, hloop]
  simp [hflag]

/-- C5 witness: one section [0x20000000, 0x200000FF] inside RAM
[0x20000000, 0x20001000) with SP 0x20001000 resolves to
[0x20000100, 0x20000FFF] with data_below_stack = true. -/
theorem c5_single_section_below_witness :
    ((Section.mk ".data" 0x20000000 0x100).size ≠ 0
      ∧ (0x20000000 : Nat) + 0x100 ≤ U32_MOD
      ∧ (1 : Nat) ≤ 0x20001000 ∧ (0x20001000 : Nat) ≤ U32_MOD
      ∧ (0x20000000 : Nat) ≤ 0x20000000
      ∧ (0x20000000 : Nat) + 0x100 - 1 < 0x20001000 - 1
      ∧ (0x20000000 : Nat) + 0x100 - 1 < 0x20001000)
    ∧ extract_stack_info [Section.mk ".data" 0x20000000 0x100] 0x20001000
        (some ⟨0x20000000, 0x20001000⟩)
      = some ⟨⟨0x20000000 + 0x100, 0x20001000 - 1⟩, true⟩ := by
  refine ⟨⟨by decide, by decide, by decide, by decide, by decide, by decide, by decide⟩, ?_⟩
  exact c5_single_section_below ⟨0x20000000, 0x20001000⟩ 0x20001000
    ⟨".data", 0x20000000, 0x100⟩ (by decide) (by decide) (by decide) (by decide)
    (by decide) (by decide) (by decide)

/-- C8: if every non-empty section's span is disjoint from the RAM region's
span, the resolver returns the full range [RAM.start,
initial_stack_pointer - 1] with data_below_stack = false. -/
theorem c8_no_section_overlaps_ram (sections : List Section) (sp : Nat)
    (ram : RamRegion) (hsp1 : 1 ≤ sp) (hspM : sp ≤ U32_MOD)
    (hdisj : ∀ s ∈ sections, s.size ≠ 0 →
      s.address + s.size ≤ U32_MOD
        ∧ (s.address + s.size - 1 < ram.start ∨ ram.stop ≤ s.address)) :
    extract_stack_info sections sp (some ram)
      = some ⟨⟨ram.start, sp - 1⟩, false⟩ := by
  have htopeq : (sp + (U32_MOD - 1)) % U32_MOD = sp - 1 := by
    simp only [U32_MOD] at *; omega
  have hloop : stack_loop ram (sp - 1) sections (some ram.start) = some ram.start := by
    refine stack_loop_of_skips ram (sp - 1) sections ram.start fun s hs => ?_
    by_cases hsz : s.size = 0
    · exact Or.inl hsz
    · refine Or.inr ?_
      obtain ⟨hwrap, hd⟩ := hdisj s hs hsz
      have hhigh : section_high s = s.address + s.size - 1 := by
        simp only [section_high, U32_MOD] at *; omega
      rw [hhigh]
      omega
  rw [extract_stack_info_some, htopeq, hloop]
  simp

/-- C8 witness: a single flash-resident section [0x100, 0x1FF] below RAM
[0x20000000, 0x20001000) leaves the resolved range at the full
[0x20000000, 0x20000FFF] with data_below_stack = false. -/
theorem c8_no_section_overlaps_ram_witness :
    ((1 : Nat) ≤ 0x20001000 ∧ (0x20001000 : Nat) ≤ U32_MOD
      ∧ ∀ s ∈ [Section.mk ".text" 0x100 0x100], s.size ≠ 0 →
          s.address + s.size ≤ U32_MOD
            ∧ (s.address + s.size - 1 < 0x20000000 ∨ (0x20001000 : Nat) ≤ s.address))
    ∧ extract_stack_info [Section.mk ".text" 0x100 0x100] 0x20001000
        (some ⟨0x20000000, 0x20001000⟩)
      = some ⟨⟨0x20000000, 0x20001000 - 1⟩, false⟩ := by
  refine ⟨⟨by decide, by decide, by decide⟩, ?_⟩
  exact c8_no_section_overlaps_ram [Section.mk ".text" 0x100 0x100] 0x20001000
    ⟨0x20000000, 0x20001000⟩ (by decide) (by decide) (by decide)

theorem stack_loop_filter_nonzero (ram : RamRegion) (top : Nat) (l : List Section)
    (st : Option Nat) :
    stack_loop ram top l st
      = stack_loop ram top (l.filter fun s => s.size != 0) st := by
  induction l generalizing st with
  | nil => rfl
  | cons a rest ih =>
    by_cases hsz : a.size = 0
    · have hf : (a :: rest).filter (fun s => s.size != 0)
          = rest.filter (fun s => s.size != 0) := by
        simp [List.filter_cons, hsz]
      rw [hf]
      show stack_loop ram top rest (stack_step ram top st a) = _
      rw [stack_step_id ram top a (Or.inl hsz) st]
      exact ih st
    · have hf : (a :: rest).filter (fun s => s.size != 0)
          = a :: rest.filter (fun s => s.size != 0) := by
        simp [List.filter_cons, hsz]
      rw [hf]
      show stack_loop ram top rest (stack_step ram top st a)
        = stack_loop ram top (rest.filter fun s => s.size != 0)
            (stack_step ram top st a)
      exact ih (stack_step ram top st a)

/-- C9: zero-size sections never affect the resolver: two section collections
that agree after discarding all zero-size sections (so adding or removing any
zero-size sections, at any address) produce exactly the same result. -/
theorem c9_zero_size_sections_irrelevant (l₁ l₂ : List Section) (sp : Nat)
    (ram_region : Option RamRegion)
    (h : l₁.filter (fun s => s.size != 0) = l₂.filter (fun s => s.size != 0)) :
    extract_stack_info l₁ sp ram_region = extract_stack_info l₂ sp ram_region := by
  cases ram_region with
  | none => rfl
  | some ram =>
    rw [extract_stack_info_some, extract_stack_info_some,
      stack_loop_filter_nonzero ram ((sp + (U32_MOD - 1)) % U32_MOD) l₁,
      stack_loop_filter_nonzero ram ((sp + (U32_MOD - 1)) % U32_MOD) l₂, h]

/-- C9 witness: inserting a zero-size section in the middle of the RAM bank
leaves the resolved result unchanged. -/
theorem c9_zero_size_sections_irrelevant_witness :
    ([Section.mk ".pad" 0x20000800 0, Section.mk ".data" 0x20000000 0x100].filter
        (fun s => s.size != 0)
      = [Section.mk ".data" 0x20000000 0x100].filter (fun s => s.size != 0))
    ∧ extract_stack_info
        [Section.mk ".pad" 0x20000800 0, Section.mk ".data" 0x20000000 0x100]
        0x20001000 (some ⟨0x20000000, 0x20001000⟩)
      = extract_stack_info [Section.mk ".data" 0x20000000 0x100]
          0x20001000 (some ⟨0x20000000, 0x20001000⟩) :=
  ⟨rfl, c9_zero_size_sections_irrelevant
    [Section.mk ".pad" 0x20000800 0, Section.mk ".data" 0x20000000 0x100]
    [Section.mk ".data" 0x20000000 0x100] 0x20001000
    (some ⟨0x20000000, 0x20001000⟩) rfl⟩

theorem extract_active_ram_region_eq_none_iff (map : List MemoryRegion) (sp : Nat) :
    extract_active_ram_region map sp = none ↔
      ∀ r' : RamRegion, MemoryRegion.Ram r' ∈ map → ¬(r'.start ≤ sp ∧ sp ≤ r'.stop) := by
  induction map with
  | nil => simp [extract_active_ram_region]
  | cons m rest ih =>
    cases m with
    | NonRam =>
      rw [show extract_active_ram_region (MemoryRegion.NonRam :: rest) sp
            = extract_active_ram_region rest sp from rfl, ih]
      constructor
      · intro h r' hmem hc
        rcases List.mem_cons.mp hmem with heq | hmem'
        · exact absurd heq (by simp)
        · exact h r' hmem' hc
      · intro h r' hmem'
        exact h r' (List.mem_cons_of_mem _ hmem')
    | Ram r =>
      by_cases hc : contains_inc ⟨r.start, r.stop⟩ sp = true
      · rw [show extract_active_ram_region (MemoryRegion.Ram r :: rest) sp = some r from by
          simp [extract_active_ram_region, hc]]
        simp only [reduceCtorEq, false_iff]
        intro h
        exact h r (List.mem_cons_self _ _) ((contains_inc_iff _ _).mp hc)
      · rw [show extract_active_ram_region (MemoryRegion.Ram r :: rest) sp
              = extract_active_ram_region rest sp from by
            simp [extract_active_ram_region, hc], ih]
        constructor
        · intro h r' hmem hcc
          rcases List.mem_cons.mp hmem with heq | hmem'
          · have : r' = r := by injection heq
            subst this
            exact hc ((contains_inc_iff _ _).mpr hcc)
          · exact h r' hmem' hcc
        · intro h r' hmem'
          exact h r' (List.mem_cons_of_mem _ hmem')

theorem extract_active_ram_region_eq_some_iff (map : List MemoryRegion) (sp : Nat)
    (r : RamRegion) :
    extract_active_ram_region map sp = some r ↔
      ∃ pre post, map = pre ++ MemoryRegion.Ram r :: post
        ∧ (r.start ≤ sp ∧ sp ≤ r.stop)
        ∧ ∀ r' : RamRegion, MemoryRegion.Ram r' ∈ pre → ¬(r'.start ≤ sp ∧ sp ≤ r'.stop) := by
  induction map with
  | nil =>
    simp only [extract_active_ram_region, reduceCtorEq, false_iff]
    rintro ⟨pre, post, heq, -, -⟩
    exact absurd heq (by simp)
  | cons m rest ih =>
    cases m with
    | NonRam =>
      rw [show extract_active_ram_region (MemoryRegion.NonRam :: rest) sp
            = extract_active_ram_region rest sp from rfl, ih]
      constructor
      · rintro ⟨pre, post, heq, hcr, hpre⟩
        refine ⟨MemoryRegion.NonRam :: pre, post, by rw [heq]; rfl, hcr, ?_⟩
        intro r' hmem hcc
        rcases List.mem_cons.mp hmem with heq' | hmem'
        · exact absurd heq' (by simp)
        · exact hpre r' hmem' hcc
      · rintro ⟨pre, post, heq, hcr, hpre⟩
        cases pre with
        | nil => exact absurd (List.head_eq_of_cons_eq heq) (by simp)
        | cons p pre' =>
          have h1 : MemoryRegion.NonRam = p := List.head_eq_of_cons_eq heq
          have h2 : rest = pre' ++ MemoryRegion.Ram r :: post := List.tail_eq_of_cons_eq heq
          exact ⟨pre', post, h2, hcr,
            fun r' hmem' hcc => hpre r' (List.mem_cons_of_mem _ hmem') hcc⟩
    | Ram rr =>
      by_cases hc : contains_inc ⟨rr.start, rr.stop⟩ sp = true
      · rw [show extract_active_ram_region (MemoryRegion.Ram rr :: rest) sp = some rr from by
          simp [extract_active_ram_region, hc]]
        constructor
        · intro h
          have hrr : rr = r := by injection h
          subst hrr
          exact ⟨[], rest, rfl, (contains_inc_iff _ _).mp hc, by simp⟩
        · rintro ⟨pre, post, heq, hcr, hpre⟩
          cases pre with
          | nil =>
            have h1 : MemoryRegion.Ram rr = MemoryRegion.Ram r := List.head_eq_of_cons_eq heq
            have : rr = r := by injection h1
            rw [this]
          | cons p pre' =>
            have h1 : MemoryRegion.Ram rr = p := List.head_eq_of_cons_eq heq
            exact absurd ((contains_inc_iff _ _).mp hc)
              (hpre rr (h1 ▸ List.mem_cons_self _ _))
      · rw [show extract_active_ram_region (MemoryRegion.Ram rr :: rest) sp
              = extract_active_ram_region rest sp from by
            simp [extract_active_ram_region, hc], ih]
        constructor
        · rintro ⟨pre, post, heq, hcr, hpre⟩
          refine ⟨MemoryRegion.Ram rr :: pre, post, by rw [heq]; rfl, hcr, ?_⟩
          intro r' hmem hcc
          rcases List.mem_cons.mp hmem with heq' | hmem'
          · have : r' = rr := by injection heq'
            subst this
            exact hc ((contains_inc_iff _ _).mpr hcc)
          · exact hpre r' hmem' hcc
        · rintro ⟨pre, post, heq, hcr, hpre⟩
          cases pre with
          | nil =>
            have h1 : MemoryRegion.Ram rr = MemoryRegion.Ram r := List.head_eq_of_cons_eq heq
            have hrr : rr = r := by injection h1
            subst hrr
            exact absurd ((contains_inc_iff _ _).mpr hcr) hc
          | cons p pre' =>
            have h2 : rest = pre' ++ MemoryRegion.Ram r :: post := List.tail_eq_of_cons_eq heq
            exact ⟨pre', post, h2, hcr,
              fun r' hmem' hcc => hpre r' (List.mem_cons_of_mem _ hmem') hcc⟩

/-- C7: the selector returns the first RAM region in iteration order whose
inclusive span contains the stack pointer, ignoring all non-RAM regions; if
no RAM region's span contains it, the result is absent (no error), and the
resolver maps an absent active region to an absent Stack Info. -/
theorem c7_selector_first_match (map : List MemoryRegion) (sp : Nat) :
    (∀ r : RamRegion,
        extract_active_ram_region map sp = some r ↔
          ∃ pre post, map = pre ++ MemoryRegion.Ram r :: post
            ∧ (r.start ≤ sp ∧ sp ≤ r.stop)
            ∧ ∀ r' : RamRegion, MemoryRegion.Ram r' ∈ pre →
                ¬(r'.start ≤ sp ∧ sp ≤ r'.stop))
    ∧ (extract_active_ram_region map sp = none ↔
        ∀ r' : RamRegion, MemoryRegion.Ram r' ∈ map →
          ¬(r'.start ≤ sp ∧ sp ≤ r'.stop))
    ∧ (∀ sections : List Section, extract_stack_info sections sp none = none) :=
  ⟨fun r => extract_active_ram_region_eq_some_iff map sp r,
   extract_active_ram_region_eq_none_iff map sp,
   fun _ => rfl⟩

/-- C7 witness: on the map [NonRam, Ram [0, 10], Ram [0, 20]] with SP 15, the
selector skips the non-RAM region and the non-containing RAM region and
returns the first RAM region containing 15. -/
theorem c7_selector_first_match_witness :
    extract_active_ram_region
        [MemoryRegion.NonRam, MemoryRegion.Ram ⟨0, 10⟩, MemoryRegion.Ram ⟨0, 20⟩] 15
      = some ⟨0, 20⟩ := by
  refine ((c7_selector_first_match _ 15).1 ⟨0, 20⟩).mpr
    ⟨[MemoryRegion.NonRam, MemoryRegion.Ram ⟨0, 10⟩], [], rfl, by decide, ?_⟩
  intro r' hmem
  rcases List.mem_cons.mp hmem with heq | hmem'
  · exact absurd heq (by simp)
  · have hr : r' = ⟨0, 10⟩ := by
      rcases List.mem_cons.mp hmem' with heq' | h0
      · injection heq'
      · exact absurd h0 (by simp)
    subst hr
    decide

theorem stack_step_comm (ram : RamRegion) (top : Nat) (a b : Section)
    (htop : top < U32_MOD)
    (hwa : a.address + a.size ≤ U32_MOD) (hwb : b.address + b.size ≤ U32_MOD)
    (hdisj : a = b ∨ section_high a < b.address ∨ section_high b < a.address) :
    ∀ st, stack_step ram top (stack_step ram top st a) b
      = stack_step ram top (stack_step ram top st b) a := by
  rcases hdisj with rfl | hdisj
  · intro st
    rfl
  intro st
  cases st with
  | none => rfl
  | some lo =>
    by_cases hida : a.size = 0 ∨ ¬(ram.start ≤ section_high a ∧ section_high a < ram.stop)
    · rw [stack_step_id ram top a hida, stack_step_id ram top a hida]
    by_cases hidb : b.size = 0 ∨ ¬(ram.start ≤ section_high b ∧ section_high b < ram.stop)
    · rw [stack_step_id ram top b hidb, stack_step_id ram top b hidb]
    push_neg at hida hidb
    obtain ⟨hsa, hra⟩ := hida
    obtain ⟨hsb, hrb⟩ := hidb
    have hha : section_high a = a.address + a.size - 1 :=
      Nat.mod_eq_of_lt (by simp only [U32_MOD] at *; omega)
    have hhb : section_high b = b.address + b.size - 1 :=
      Nat.mod_eq_of_lt (by simp only [U32_MOD] at *; omega)
    by_cases hka : a.address ≤ top ∧ top ≤ section_high a
    · have hna := stack_step_none_of_kill ram top a hsa hra hka
      rw [hna lo]
      cases hsb' : stack_step ram top (some lo) b with
      | none => rfl
      | some x => rw [hna x]; rfl
    by_cases hkb : b.address ≤ top ∧ top ≤ section_high b
    · have hnb := stack_step_none_of_kill ram top b hsb hrb hkb
      rw [hnb lo]
      cases hsa' : stack_step ram top (some lo) a with
      | none => rfl
      | some x => rw [hnb x]; rfl
    have hla := fun lo' => stack_step_live ram top a lo' hsa hra hka
    have hlb := fun lo' => stack_step_live ram top b lo' hsb hrb hkb
    rw [hla lo, hlb lo]
    by_cases hPa : lo ≤ a.address ∧ a.address ≤ top
        ∧ section_high a ≤ top ∧ lo ≤ section_high a
    · rw [if_pos hPa]
      by_cases hPb : lo ≤ b.address ∧ b.address ≤ top
          ∧ section_high b ≤ top ∧ lo ≤ section_high b
      · rw [if_pos hPb, hlb ((section_high a + 1) % U32_MOD),
          hla ((section_high b + 1) % U32_MOD)]
        simp only [hha, hhb, U32_MOD] at *
        split_ifs <;> simp only [Option.some.injEq] <;> omega
      · rw [if_neg hPb, hlb ((section_high a + 1) % U32_MOD), hla lo, if_pos hPa]
        simp only [hha, hhb, U32_MOD] at *
        split_ifs <;> simp only [Option.some.injEq] <;> omega
    · rw [if_neg hPa]
      by_cases hPb : lo ≤ b.address ∧ b.address ≤ top
          ∧ section_high b ≤ top ∧ lo ≤ section_high b
      · rw [if_pos hPb, hla ((section_high b + 1) % U32_MOD), hlb lo, if_pos hPb]
        simp only [hha, hhb, U32_MOD] at *
        split_ifs <;> simp only [Option.some.injEq] <;> omega
      · rw [if_neg hPb, hla lo, hlb lo, if_neg hPa, if_neg hPb]

/-- C2: for non-empty, pairwise non-overlapping, RAM-resident sections (whose
spans do not wrap the 32-bit address space), the resolver is insensitive to
the iteration order of the section collection: any permutation produces the
same result (same range and flag, or absence in both runs). -/
theorem c2_order_independence (ram : RamRegion) (sp : Nat) (l₁ l₂ : List Section)
    (hperm : l₁.Perm l₂)
    (hsz : ∀ s ∈ l₁, s.size ≠ 0)
    (hwrap : ∀ s ∈ l₁, s.address + s.size ≤ U32_MOD)
    (hresident : ∀ s ∈ l₁, ram.start ≤ section_high s ∧ section_high s < ram.stop)
    (hdisj : l₁.Pairwise fun s t => section_high s < t.address ∨ section_high t < s.address) :
    extract_stack_info l₁ sp (some ram) = extract_stack_info l₂ sp (some ram) := by
  have htop : (sp + (U32_MOD - 1)) % U32_MOD < U32_MOD :=
    Nat.mod_lt _ (by simp [U32_MOD])
  have hfold : stack_loop ram ((sp + (U32_MOD - 1)) % U32_MOD) l₁ (some ram.start)
      = stack_loop ram ((sp + (U32_MOD - 1)) % U32_MOD) l₂ (some ram.start) := by
    refine hperm.foldl_eq' ?_ (some ram.start)
    intro x hx y hy z
    refine stack_step_comm ram _ x y htop (hwrap x hx) (hwrap y hy) ?_ z
    by_cases hxy : x = y
    · exact Or.inl hxy
    · exact Or.inr (List.Pairwise.forall (fun s t h => h.symm) hdisj hx hy hxy)
  rw [extract_stack_info_some, extract_stack_info_some, hfold]

/-- C2 witness: swapping two disjoint RAM-resident sections produces the same
resolved stack range and flag. -/
theorem c2_order_independence_witness :
    (List.Perm
        [Section.mk ".data" 0x20000000 0x100, Section.mk ".bss" 0x20000100 0x40]
        [Section.mk ".bss" 0x20000100 0x40, Section.mk ".data" 0x20000000 0x100]
      ∧ (∀ s ∈ [Section.mk ".data" 0x20000000 0x100, Section.mk ".bss" 0x20000100 0x40],
          s.size ≠ 0)
      ∧ (∀ s ∈ [Section.mk ".data" 0x20000000 0x100, Section.mk ".bss" 0x20000100 0x40],
          s.address + s.size ≤ U32_MOD)
      ∧ (∀ s ∈ [Section.mk ".data" 0x20000000 0x100, Section.mk ".bss" 0x20000100 0x40],
          (0x20000000 : Nat) ≤ section_high s ∧ section_high s < 0x20001000)
      ∧ List.Pairwise
          (fun s t => section_high s < t.address ∨ section_high t < s.address)
          [Section.mk ".data" 0x20000000 0x100, Section.mk ".bss" 0x20000100 0x40])
    ∧ extract_stack_info
        [Section.mk ".data" 0x20000000 0x100, Section.mk ".bss" 0x20000100 0x40]
        0x20001000 (some ⟨0x20000000, 0x20001000⟩)
      = extract_stack_info
          [Section.mk ".bss" 0x20000100 0x40, Section.mk ".data" 0x20000000 0x100]
          0x20001000 (some ⟨0x20000000, 0x20001000⟩) := by
  refine ⟨⟨List.Perm.swap _ _ _, by decide, by decide, by decide, by decide⟩, ?_⟩
  exact c2_order_independence ⟨0x20000000, 0x20001000⟩ 0x20001000 _ _
    (List.Perm.swap _ _ _) (by decide) (by decide) (by decide) (by decide)
